import Mathlib

/-! Oksan ROM DISK flash controller and I/O board (`src/mame/misc/xtom3d.cpp`)

A shallow embedding of `isa16_oksan_rom_disk`: the four private members become a
record, `read` and `write` become functions that pass the record explicitly. The
handlers that `isa16_xtom3d_io_sound::io_map` installs become functions of the values
the board samples from its input ports and its serial EEPROM.
Machine integers are natural numbers; every place where the C++ arithmetic is
carried out in `u32` is reduced modulo `2 ^ 32` explicitly.
-/

namespace Xtom3d

/-- Modelled from the spec: the `memory_region` class behind `m_flash_rom` is declared
in the emulator core, outside the sources at hand. The spec calls it an immutable,
externally owned byte buffer of a fixed size; the controller uses only its two
accessors, `bytes ()` (the size) and `base ()` (the pointer it indexes), so the
region is the pair of what those two calls give: `base i` is the byte `base ()[i]`. -/
structure memory_region where
  bytes : Nat
  base : Nat → Nat

/-- Modelled from the spec: the `BIT` helper of the emulator core is not among the
sources; `BIT (x, n)` is bit `n` of `x` ("set by one bit of a control-port write"). -/
def BIT (x n : Nat) : Nat := (x >>> n) &&& 1

/-- The private members of `isa16_oksan_rom_disk`, with their member initialisers
(`u8 m_flash_cmd = 0; u32 m_flash_addr = 0; bool m_flash_unlock = false;
u8 m_flash_state = 0;`). -/
structure isa16_oksan_rom_disk where
  m_flash_cmd : Nat := 0
  m_flash_addr : Nat := 0
  m_flash_unlock : Bool := false
  m_flash_state : Nat := 0
deriving DecidableEq, Repr

/-- A freshly constructed device: every member holds its initialiser. -/
def constructed : isa16_oksan_rom_disk := {}

/-- The body of `isa16_oksan_rom_disk::device_reset`: `m_flash_state = 0;`. -/
def device_reset (s : isa16_oksan_rom_disk) : isa16_oksan_rom_disk :=
  { s with m_flash_state := 0 }

/-- The index `((m_flash_addr << 1) + (offset & 1)) & flash_size` of `read`, where
`flash_size = m_flash_rom->bytes () - 1` is a `u32` and the shift and the sum are
`u32` operations. -/
def rom_index (s : isa16_oksan_rom_disk) (m_flash_rom : memory_region) (offset : Nat) : Nat :=
  let flash_size := (m_flash_rom.bytes + 2 ^ 32 - 1) % 2 ^ 32
  (((s.m_flash_addr <<< 1) % 2 ^ 32 + (offset &&& 1)) % 2 ^ 32) &&& flash_size

/-- The function `isa16_oksan_rom_disk::read`. The result is the returned byte together
with the device after the call; `side_effects_disabled` is what
`machine ().side_effects_disabled ()` answers during the call. -/
def read (s : isa16_oksan_rom_disk) (m_flash_rom : memory_region)
    (side_effects_disabled : Bool) (offset : Nat) : Nat × isa16_oksan_rom_disk :=
  if offset = 0xa ∨ offset = 0xb then
    if s.m_flash_cmd = 0xf0 ∧ s.m_flash_unlock = true then
      let rom_data := m_flash_rom.base (rom_index s m_flash_rom offset)
      if (offset &&& 1) ≠ 0 ∧ side_effects_disabled = false then
        (rom_data, { s with m_flash_addr := (s.m_flash_addr + 1) % 2 ^ 32 })
      else
        (rom_data, s)
    else
      (0, s)
  else
    (0, s)

/-- The function `isa16_oksan_rom_disk::write`; `data` is the `u8` argument. -/
def write (s : isa16_oksan_rom_disk) (offset data : Nat) : isa16_oksan_rom_disk :=
  if offset = 0x0 then
    { s with m_flash_addr := (s.m_flash_addr &&& 0xffffff00) ||| (data &&& 0xff) }
  else if offset = 0x2 then
    { s with m_flash_addr := (s.m_flash_addr &&& 0xffff00ff) ||| ((data &&& 0xff) <<< 8) }
  else if offset = 0x4 then
    { s with m_flash_addr := (s.m_flash_addr &&& 0xff00ffff) ||| ((data &&& 0xff) <<< 16) }
  else if offset = 0x6 then
    { s with m_flash_addr := (s.m_flash_addr &&& 0x00ffffff) ||| ((data &&& 0xff) <<< 24) }
  else if offset = 0xa then
    let flash_lower_addr := s.m_flash_addr &&& 0xffff
    if data = 0xaa ∧ flash_lower_addr = 0x5555 ∧ s.m_flash_state = 0 then
      { s with m_flash_state := 1 }
    else if data = 0x55 ∧ flash_lower_addr = 0x2aaa ∧ s.m_flash_state = 1 then
      { s with m_flash_state := 2 }
    else if s.m_flash_state = 2 ∧ flash_lower_addr = 0x5555 then
      { s with m_flash_state := 0, m_flash_cmd := data }
    else
      s
  else if offset = 0xc then
    { s with m_flash_unlock := decide (BIT data 3 ≠ 0) }
  else
    s

/-- A run of port writes, performed from left to right; each item is `(offset, data)`. -/
def writes (s : isa16_oksan_rom_disk) : List (Nat × Nat) → isa16_oksan_rom_disk
  | [] => s
  | (offset, data) :: rest => writes (write s offset data) rest

/-- Byte `i` of a register value, little-endian: the base-256 digit of weight `256 ^ i`. -/
def byte_of (x i : Nat) : Nat := x / 256 ^ i % 256

/-- A device in read-array mode (command 0xF0 latched, chip enabled) whose latch holds
0x1000, used to evaluate the model on a concrete input. -/
def sample_read_array : isa16_oksan_rom_disk :=
  { m_flash_cmd := 0xf0, m_flash_addr := 0x1000, m_flash_unlock := true, m_flash_state := 0 }

/-- A 16 KiB region whose byte at index `i` is `i % 251`, used to evaluate the model on
a concrete input. -/
def sample_rom : memory_region := { bytes := 0x4000, base := fun i => i % 251 }

/-- The port writes that take a freshly constructed device through a complete unlock
sequence carrying the command 0xF0, enable the chip through the control port, walk
two steps into a second unlock sequence and leave 0x1000 in the latch. -/
def sample_session : List (Nat × Nat) :=
  [(0x0, 0x55), (0x2, 0x55), (0xa, 0xaa), (0x0, 0xaa), (0x2, 0x2a), (0xa, 0x55),
   (0x0, 0x55), (0x2, 0x55), (0xa, 0xf0), (0xc, 0x08),
   (0x0, 0x55), (0x2, 0x55), (0xa, 0xaa), (0x0, 0xaa), (0x2, 0x2a), (0xa, 0x55),
   (0x0, 0x00), (0x2, 0x10)]

/-- A device that has taken the first step of the unlock sequence: the latch of a freshly
constructed device is set to 0x5555 and 0xAA is written to the data port. -/
def sample_unlock1 : isa16_oksan_rom_disk :=
  writes constructed [(0x0, 0x55), (0x2, 0x55), (0xa, 0xaa)]

/-- A device that has taken the first two steps of the unlock sequence and whose latch
has been set back to 0x5555 for the third. -/
def sample_unlock2 : isa16_oksan_rom_disk :=
  writes constructed [(0x0, 0x55), (0x2, 0x55), (0xa, 0xaa), (0x0, 0xaa), (0x2, 0x2a),
    (0xa, 0x55), (0x0, 0x55), (0x2, 0x55)]

/-- One word fetch after another, as the host streams the array: each fetch is a read of
offset 0xA followed by a read of offset 0xB, both with side effects enabled. The result
is the bytes returned, in order, with the device after the last read. -/
def fetch_words (s : isa16_oksan_rom_disk) (m_flash_rom : memory_region) :
    Nat → List Nat × isa16_oksan_rom_disk
  | 0 => ([], s)
  | n + 1 =>
    let low := read s m_flash_rom false 0xa
    let high := read low.2 m_flash_rom false 0xb
    let rest := fetch_words high.2 m_flash_rom n
    (low.1 :: high.1 :: rest.1, rest.2)

/-! ### The I/O and sound board (`isa16_xtom3d_io_sound`) -/

/-- Modelled from the spec: the line-state constants `ASSERT_LINE` and `CLEAR_LINE` are
declared in the emulator core, not in the sources at hand; a line that is asserted
reads 1 ("writing 0b0111 sets chip-select=1, clock=1, data-in=1"). -/
def ASSERT_LINE : Nat := 1

/-- Modelled from the spec: see `ASSERT_LINE`; a line that is cleared reads 0. -/
def CLEAR_LINE : Nat := 0

/-- What the collaborators of `isa16_xtom3d_io_sound` answer during one access: the four
input ports (`m_system->read ()`, `m_in0->read ()`, `m_in1->read ()`, `m_in2->read ()`)
and the data-out line of the serial EEPROM (`m_eeprom->do_read ()`). -/
structure isa16_xtom3d_io_sound where
  m_system : Nat
  m_in0 : Nat
  m_in1 : Nat
  m_in2 : Nat
  m_eeprom_do_read : Nat
deriving DecidableEq, Repr

/-- A call made on `m_eeprom` by the write handler, with the line state it passes. -/
inductive eeprom_call where
  | clk_write (state : Nat)
  | cs_write (state : Nat)
  | di_write (state : Nat)
deriving DecidableEq, Repr

/-- The read handler installed on `0x08 .. 0x09`:
`offset & 1 ? m_system->read () : m_in0->read ()`. -/
def io_map_r_08_09 (d : isa16_xtom3d_io_sound) (offset : Nat) : Nat :=
  if (offset &&& 1) ≠ 0 then d.m_system else d.m_in0

/-- The read handler installed on `0x0a .. 0x0b`:
`offset & 1 ? m_in2->read () : m_in1->read ()`. -/
def io_map_r_0a_0b (d : isa16_xtom3d_io_sound) (offset : Nat) : Nat :=
  if (offset &&& 1) ≠ 0 then d.m_in2 else d.m_in1

/-- The write handler installed on `0x0c`: the three calls on `m_eeprom`, in the order
the source makes them (clock, chip select, data in). -/
def io_map_w_0c (data : Nat) : List eeprom_call :=
  [ eeprom_call.clk_write (if BIT data 1 ≠ 0 then ASSERT_LINE else CLEAR_LINE),
    eeprom_call.cs_write (if BIT data 0 ≠ 0 then ASSERT_LINE else CLEAR_LINE),
    eeprom_call.di_write (if BIT data 2 ≠ 0 then ASSERT_LINE else CLEAR_LINE) ]

/-- The read handler installed on `0x0e`: `m_eeprom->do_read () | 0xfe`. -/
def io_map_r_0e (d : isa16_xtom3d_io_sound) : Nat :=
  d.m_eeprom_do_read ||| 0xfe

/-- Where a read of the port window ends up. -/
inductive io_read_result where
  | sound
  | value (v : Nat)
  | unmapped
deriving DecidableEq, Repr

/-- Where a write to the port window ends up. -/
inductive io_write_result where
  | sound
  | eeprom (calls : List eeprom_call)
  | unmapped
deriving DecidableEq, Repr

/-- Modelled from the spec: the `address_map` machinery that `io_map` fills in is part of
the emulator core, not of the sources at hand. Following the port table of the spec, a
read at window offset `o` goes to the entry whose range holds `o`, and a handler that
takes an offset receives `o` less the start of its range; offsets 0 to 3 belong to the
sound chip, whose registers are not modelled, and an offset in no range is unmapped. -/
def io_map_read (d : isa16_xtom3d_io_sound) (offset : Nat) : io_read_result :=
  if offset ≤ 0x03 then io_read_result.sound
  else if 0x08 ≤ offset ∧ offset ≤ 0x09 then io_read_result.value (io_map_r_08_09 d (offset - 0x08))
  else if 0x0a ≤ offset ∧ offset ≤ 0x0b then io_read_result.value (io_map_r_0a_0b d (offset - 0x0a))
  else if offset = 0x0e then io_read_result.value (io_map_r_0e d)
  else io_read_result.unmapped

/-- Modelled from the spec: the write side of the same `address_map` routing; only the
sound chip (offsets 0 to 3) and the EEPROM port 0x0C take writes. -/
def io_map_write (offset data : Nat) : io_write_result :=
  if offset ≤ 0x03 then io_write_result.sound
  else if offset = 0x0c then io_write_result.eeprom (io_map_w_0c data)
  else io_write_result.unmapped

/-- Modelled from the spec: the levels of the three input lines of the serial EEPROM
("three write-only lines (clock, chip-select, data-in)"); the EEPROM device itself is
not among the sources at hand. -/
structure eeprom_lines where
  cs : Nat
  clk : Nat
  di : Nat
deriving DecidableEq, Repr

/-- Modelled from the spec: each `*_write` call puts its argument on its own line. -/
def eeprom_lines.drive (l : eeprom_lines) : eeprom_call → eeprom_lines
  | eeprom_call.clk_write v => { l with clk := v }
  | eeprom_call.cs_write v => { l with cs := v }
  | eeprom_call.di_write v => { l with di := v }

/-- The line levels after a run of calls, performed from left to right. -/
def eeprom_lines.drive_all (l : eeprom_lines) (calls : List eeprom_call) : eeprom_lines :=
  calls.foldl eeprom_lines.drive l

/-- Input ports holding four different values and an EEPROM whose data-out line is
high, used to evaluate the model on a concrete input. -/
def sample_board : isa16_xtom3d_io_sound :=
  { m_system := 0xf7, m_in0 := 0xfe, m_in1 := 0xef, m_in2 := 0x7f, m_eeprom_do_read := 1 }

/-! ## Bit-level facts about the address lanes -/

theorem testBit_mask (lo len i : Nat) :
    Nat.testBit ((2 ^ len - 1) <<< lo) i = decide (lo ≤ i ∧ i < lo + len) := by
  rw [Nat.testBit_shiftLeft, Nat.testBit_two_pow_sub_one]
  by_cases h1 : lo ≤ i <;> by_cases h2 : i < lo + len <;> simp [h1, h2] <;> omega

theorem lane0 (x v : Nat) :
    (x &&& 0xffffff00) ||| (v &&& 0xff) = 2 ^ 8 * (x % 2 ^ 32 / 2 ^ 8) + v % 2 ^ 8 := by
  rw [Nat.mul_add_lt_is_or (Nat.mod_lt _ (by decide)), ← Nat.shiftRight_eq_div_pow]
  have hm : (0xffffff00 : Nat) = (2 ^ 24 - 1) <<< 8 := by decide
  have hff : (0xff : Nat) = 2 ^ 8 - 1 := by decide
  rw [hm, hff]
  apply Nat.eq_of_testBit_eq
  intro i
  simp only [Nat.testBit_or, Nat.testBit_and, testBit_mask, Nat.testBit_two_pow_sub_one,
    Nat.testBit_mod_two_pow, Nat.testBit_mul_pow_two, Nat.testBit_shiftRight]
  by_cases h8 : 8 ≤ i
  · have e8 : 8 + (i - 8) = i := by omega
    have h8n : ¬ i < 8 := by omega
    by_cases h32 : i < 32 <;> simp [h8, h8n, h32, e8]
  · have h8n : i < 8 := by omega
    simp [h8, h8n]

theorem lane1 (x v : Nat) :
    (x &&& 0xffff00ff) ||| ((v &&& 0xff) <<< 8)
      = 2 ^ 16 * (x % 2 ^ 32 / 2 ^ 16) + (2 ^ 8 * (v % 2 ^ 8) + x % 2 ^ 8) := by
  have hv : v % 2 ^ 8 < 2 ^ 8 := Nat.mod_lt _ (by decide)
  have hx : x % 2 ^ 8 < 2 ^ 8 := Nat.mod_lt _ (by decide)
  rw [Nat.mul_add_lt_is_or (i := 16) (by omega), Nat.mul_add_lt_is_or hx,
    ← Nat.shiftRight_eq_div_pow]
  have hm : (0xffff00ff : Nat) = (2 ^ 16 - 1) <<< 16 ||| (2 ^ 8 - 1) <<< 0 := by decide
  have hff : (0xff : Nat) = 2 ^ 8 - 1 := by decide
  rw [hm, hff]
  apply Nat.eq_of_testBit_eq
  intro i
  simp only [Nat.testBit_or, Nat.testBit_and, testBit_mask, Nat.testBit_two_pow_sub_one,
    Nat.testBit_mod_two_pow, Nat.testBit_mul_pow_two, Nat.testBit_shiftRight,
    Nat.testBit_shiftLeft]
  by_cases h8 : 8 ≤ i
  · have e8 : 8 + (i - 8) = i := by omega
    have h8n : ¬ i < 8 := by omega
    by_cases h16 : 16 ≤ i
    · have e16 : 16 + (i - 16) = i := by omega
      have h16n : ¬ i < 16 := by omega
      have hv8 : ¬ i - 8 < 8 := by omega
      by_cases h32 : i < 32 <;> simp [h8, h8n, h16, h16n, hv8, h32, e8, e16] <;>
        (intros; omega)
    · have hv8 : i - 8 < 8 := by omega
      simp [h8, h8n, h16, hv8]
  · have h8n : i < 8 := by omega
    have h16 : ¬ 16 ≤ i := by omega
    simp [h8, h8n, h16]

theorem lane2 (x v : Nat) :
    (x &&& 0xff00ffff) ||| ((v &&& 0xff) <<< 16)
      = 2 ^ 24 * (x % 2 ^ 32 / 2 ^ 24) + (2 ^ 16 * (v % 2 ^ 8) + x % 2 ^ 16) := by
  have hv : v % 2 ^ 8 < 2 ^ 8 := Nat.mod_lt _ (by decide)
  have hx : x % 2 ^ 16 < 2 ^ 16 := Nat.mod_lt _ (by decide)
  rw [Nat.mul_add_lt_is_or (i := 24) (by omega), Nat.mul_add_lt_is_or hx,
    ← Nat.shiftRight_eq_div_pow]
  have hm : (0xff00ffff : Nat) = (2 ^ 8 - 1) <<< 24 ||| (2 ^ 16 - 1) <<< 0 := by decide
  have hff : (0xff : Nat) = 2 ^ 8 - 1 := by decide
  rw [hm, hff]
  apply Nat.eq_of_testBit_eq
  intro i
  simp only [Nat.testBit_or, Nat.testBit_and, testBit_mask, Nat.testBit_two_pow_sub_one,
    Nat.testBit_mod_two_pow, Nat.testBit_mul_pow_two, Nat.testBit_shiftRight,
    Nat.testBit_shiftLeft]
  by_cases h16 : 16 ≤ i
  · have e16 : 16 + (i - 16) = i := by omega
    have h16n : ¬ i < 16 := by omega
    by_cases h24 : 24 ≤ i
    · have e24 : 24 + (i - 24) = i := by omega
      have hv8 : ¬ i - 16 < 8 := by omega
      by_cases h32 : i < 32 <;> simp [h16, h16n, h24, hv8, h32, e16, e24] <;>
        (intros; omega)
    · have hv8 : i - 16 < 8 := by omega
      simp [h16, h16n, h24, hv8]
  · have h16n : i < 16 := by omega
    have h24 : ¬ 24 ≤ i := by omega
    simp [h16, h16n, h24]

theorem lane3 (x v : Nat) :
    (x &&& 0x00ffffff) ||| ((v &&& 0xff) <<< 24) = 2 ^ 24 * (v % 2 ^ 8) + x % 2 ^ 24 := by
  have hx : x % 2 ^ 24 < 2 ^ 24 := Nat.mod_lt _ (by decide)
  rw [Nat.mul_add_lt_is_or hx]
  have hm : (0x00ffffff : Nat) = 2 ^ 24 - 1 := by decide
  have hff : (0xff : Nat) = 2 ^ 8 - 1 := by decide
  rw [hm, hff, Nat.and_pow_two_sub_one_eq_mod, Nat.and_pow_two_sub_one_eq_mod,
    Nat.shiftLeft_eq, Nat.or_comm, Nat.mul_comm]

theorem low16 (x : Nat) : x &&& 0xffff = x % 2 ^ 16 := by
  have hm : (0xffff : Nat) = 2 ^ 16 - 1 := by decide
  rw [hm, Nat.and_pow_two_sub_one_eq_mod]

/-! ## One write at a time -/

theorem write_lane0 (s : isa16_oksan_rom_disk) (v : Nat) :
    write s 0x0 v
      = { s with m_flash_addr := 2 ^ 8 * (s.m_flash_addr % 2 ^ 32 / 2 ^ 8) + v % 2 ^ 8 } := by
  simp [write, lane0]

theorem write_lane1 (s : isa16_oksan_rom_disk) (v : Nat) :
    write s 0x2 v
      = { s with m_flash_addr :=
            2 ^ 16 * (s.m_flash_addr % 2 ^ 32 / 2 ^ 16)
              + (2 ^ 8 * (v % 2 ^ 8) + s.m_flash_addr % 2 ^ 8) } := by
  simp [write, lane1]

theorem write_lane2 (s : isa16_oksan_rom_disk) (v : Nat) :
    write s 0x4 v
      = { s with m_flash_addr :=
            2 ^ 24 * (s.m_flash_addr % 2 ^ 32 / 2 ^ 24)
              + (2 ^ 16 * (v % 2 ^ 8) + s.m_flash_addr % 2 ^ 16) } := by
  simp [write, lane2]

theorem write_lane3 (s : isa16_oksan_rom_disk) (v : Nat) :
    write s 0x6 v
      = { s with m_flash_addr := 2 ^ 24 * (v % 2 ^ 8) + s.m_flash_addr % 2 ^ 24 } := by
  simp [write, lane3]

/-- Writing the two low address lanes leaves a latch whose low 16 bits are the two
bytes written, and touches nothing but the latch. -/
theorem set_low16 (s : isa16_oksan_rom_disk) (lo hi : Nat) (hlo : lo < 256) (hhi : hi < 256) :
    (write (write s 0x0 lo) 0x2 hi).m_flash_addr &&& 0xffff = lo + 256 * hi
      ∧ (write (write s 0x0 lo) 0x2 hi).m_flash_state = s.m_flash_state
      ∧ (write (write s 0x0 lo) 0x2 hi).m_flash_cmd = s.m_flash_cmd
      ∧ (write (write s 0x0 lo) 0x2 hi).m_flash_unlock = s.m_flash_unlock := by
  rw [write_lane0, write_lane1, low16]
  refine ⟨?_, rfl, rfl, rfl⟩
  show (2 ^ 16 * ((2 ^ 8 * (s.m_flash_addr % 2 ^ 32 / 2 ^ 8) + lo % 2 ^ 8) % 2 ^ 32 / 2 ^ 16)
      + (2 ^ 8 * (hi % 2 ^ 8)
        + (2 ^ 8 * (s.m_flash_addr % 2 ^ 32 / 2 ^ 8) + lo % 2 ^ 8) % 2 ^ 8)) % 2 ^ 16
    = lo + 256 * hi
  omega

/-- The three branches of the data-port case of `write`, one per command state. -/
theorem write_data_idle (s : isa16_oksan_rom_disk)
    (hst : s.m_flash_state = 0) (hlow : s.m_flash_addr &&& 0xffff = 0x5555) :
    write s 0xa 0xaa = { s with m_flash_state := 1 } := by
  simp [write, hst, hlow]

theorem write_data_unlock1 (s : isa16_oksan_rom_disk)
    (hst : s.m_flash_state = 1) (hlow : s.m_flash_addr &&& 0xffff = 0x2aaa) :
    write s 0xa 0x55 = { s with m_flash_state := 2 } := by
  simp [write, hst, hlow]

theorem write_data_unlock2 (s : isa16_oksan_rom_disk) (v : Nat)
    (hst : s.m_flash_state = 2) (hlow : s.m_flash_addr &&& 0xffff = 0x5555) :
    write s 0xa v = { s with m_flash_state := 0, m_flash_cmd := v } := by
  simp [write, hst, hlow]

/-- The four address-lane writes 0x34, 0x12, 0x00, 0x00 to offsets 0, 2, 4, 6 leave
0x00001234 in the latch in whatever order they are performed. -/
theorem writes_four_lanes (s : isa16_oksan_rom_disk) (l : List (Nat × Nat))
    (hperm : l.Perm [(0x0, 0x34), (0x2, 0x12), (0x4, 0x00), (0x6, 0x00)]) :
    (writes s l).m_flash_addr = 0x1234 := by
  have hmem := List.mem_permutations.mpr hperm
  simp only [List.permutations, List.permutationsAux_cons, List.permutationsAux_nil,
    List.permutationsAux2, List.foldr, List.map, id, List.cons_append, List.nil_append,
    List.mem_cons, List.mem_singleton, List.not_mem_nil, or_false, List.append_nil] at hmem
  rcases hmem with h | h | h | h | h | h | h | h | h | h | h | h | h | h | h | h | h | h
    | h | h | h | h | h | h <;> subst h <;>
    simp only [writes, write_lane0, write_lane1, write_lane2, write_lane3] <;> omega

/-! ## The claims -/

/-- C1: from any device whose command state is IDLE (`m_flash_state = 0`), and for every
byte `cmd`: setting the low 16 bits of the address latch to 0x5555 (writes to offsets 0
and 2) and writing 0xAA to offset 0xA, then setting them to 0x2AAA and writing 0x55 to
offset 0xA, then setting them to 0x5555 and writing `cmd` to offset 0xA, ends with
`m_flash_cmd = cmd` and the command state IDLE again. -/
theorem unlock_sequence_latches_command (s : isa16_oksan_rom_disk) (cmd : Nat)
    (hidle : s.m_flash_state = 0) :
    (writes s [(0x0, 0x55), (0x2, 0x55), (0xa, 0xaa),
               (0x0, 0xaa), (0x2, 0x2a), (0xa, 0x55),
               (0x0, 0x55), (0x2, 0x55), (0xa, cmd)]).m_flash_cmd = cmd
      ∧ (writes s [(0x0, 0x55), (0x2, 0x55), (0xa, 0xaa),
                   (0x0, 0xaa), (0x2, 0x2a), (0xa, 0x55),
                   (0x0, 0x55), (0x2, 0x55), (0xa, cmd)]).m_flash_state = 0 := by
  simp only [writes]
  obtain ⟨ha1, hs1, -, -⟩ := set_low16 s 0x55 0x55 (by decide) (by decide)
  have e1 := write_data_idle (write (write s 0x0 0x55) 0x2 0x55) (hs1.trans hidle) ha1
  rw [e1]
  obtain ⟨ha2, hs2, -, -⟩ :=
    set_low16 { write (write s 0x0 0x55) 0x2 0x55 with m_flash_state := 1 } 0xaa 0x2a
      (by decide) (by decide)
  have e2 := write_data_unlock1 _ hs2 ha2
  rw [e2]
  obtain ⟨ha3, hs3, -, -⟩ :=
    set_low16
      { write (write { write (write s 0x0 0x55) 0x2 0x55 with m_flash_state := 1 } 0x0 0xaa)
          0x2 0x2a with m_flash_state := 2 } 0x55 0x55 (by decide) (by decide)
  have e3 := write_data_unlock2 _ cmd hs3 ha3
  rw [e3]
  exact ⟨rfl, rfl⟩

theorem unlock_sequence_latches_command_witness :
    constructed.m_flash_state = 0
      ∧ (writes constructed [(0x0, 0x55), (0x2, 0x55), (0xa, 0xaa),
               (0x0, 0xaa), (0x2, 0x2a), (0xa, 0x55),
               (0x0, 0x55), (0x2, 0x55), (0xa, 0xf0)]).m_flash_cmd = 0xf0
      ∧ (writes constructed [(0x0, 0x55), (0x2, 0x55), (0xa, 0xaa),
                   (0x0, 0xaa), (0x2, 0x2a), (0xa, 0x55),
                   (0x0, 0x55), (0x2, 0x55), (0xa, 0xf0)]).m_flash_state = 0 :=
  ⟨by decide, unlock_sequence_latches_command constructed 0xf0 (by decide)⟩

/-- The `u32` value `bytes () - 1` of a region of at most `2 ^ 32` bytes that is not
empty is the number below the size. -/
theorem flash_size_eq (n : Nat) (hpos : 0 < n) (hle : n ≤ 2 ^ 32) :
    (n + 2 ^ 32 - 1) % 2 ^ 32 = n - 1 := by
  omega

/-- The index of `read` for a region whose size is a power of two up to `2 ^ 32`. -/
theorem rom_index_pow2 (s : isa16_oksan_rom_disk) (rom : memory_region) (p k : Nat)
    (hp : p < 2) (hk : k ≤ 32) (hsize : rom.bytes = 2 ^ k) :
    rom_index s rom (0xa + p) = (2 * s.m_flash_addr + p) % rom.bytes := by
  have hpar : (0xa + p) &&& 1 = p := by
    rw [Nat.and_one_is_mod]; omega
  have hpos : 0 < (2 : Nat) ^ k := Nat.two_pow_pos k
  have hle : (2 : Nat) ^ k ≤ 2 ^ 32 := Nat.pow_le_pow_right (by decide) hk
  have hdvd : (2 : Nat) ^ k ∣ 2 ^ 32 := Nat.pow_dvd_pow 2 hk
  unfold rom_index
  simp only [hpar, hsize, flash_size_eq _ hpos hle, Nat.and_pow_two_sub_one_eq_mod,
    Nat.shiftLeft_eq, Nat.pow_one]
  rw [Nat.mod_mod_of_dvd _ hdvd, Nat.add_mod, Nat.mod_mod_of_dvd _ hdvd, ← Nat.add_mod,
    Nat.mul_comm]

/-- C2: in read-array mode (`m_flash_cmd = 0xF0`, `m_flash_unlock` set), for a region that
is not empty and either data port (offset `0xA + p`, parity `p`), `read` returns the byte
at index `((A << 1) + p) AND (size - 1)`, the shift, the sum and `size - 1` being `u32`
values; for a size of at most `2 ^ 32` the mask is `size - 1` itself, for a size that is
a power of two up to `2 ^ 32` the index is `(2 * A + p) mod size`, and with `A = 0x1000`
in a region of at least `2 ^ 14` bytes the two ports give the bytes at 0x2000 and
0x2001. -/
theorem read_array_returns_indexed_byte (s : isa16_oksan_rom_disk) (rom : memory_region)
    (sed : Bool) (p : Nat)
    (hcmd : s.m_flash_cmd = 0xf0) (hun : s.m_flash_unlock = true) (hp : p < 2)
    (hne : 0 < rom.bytes) :
    (read s rom sed (0xa + p)).1
        = rom.base ((((2 * s.m_flash_addr) % 2 ^ 32 + p) % 2 ^ 32)
            &&& ((rom.bytes - 1) % 2 ^ 32))
      ∧ (rom.bytes ≤ 2 ^ 32 →
          (read s rom sed (0xa + p)).1
            = rom.base ((((2 * s.m_flash_addr) % 2 ^ 32 + p) % 2 ^ 32) &&& (rom.bytes - 1)))
      ∧ (∀ k, k ≤ 32 → rom.bytes = 2 ^ k →
          ((((2 * s.m_flash_addr) % 2 ^ 32 + p) % 2 ^ 32) &&& (rom.bytes - 1))
              = (2 * s.m_flash_addr + p) % rom.bytes
            ∧ (read s rom sed (0xa + p)).1 = rom.base ((2 * s.m_flash_addr + p) % rom.bytes))
      ∧ (∀ k, 14 ≤ k → k ≤ 32 → rom.bytes = 2 ^ k → s.m_flash_addr = 0x1000 →
          (read s rom sed (0xa + p)).1 = rom.base (0x2000 + p)) := by
  have hpar : (0xa + p) &&& 1 = p := by
    rw [Nat.and_one_is_mod]; omega
  have hport : 0xa + p = 0xa ∨ 0xa + p = 0xb := by omega
  have hmask : (rom.bytes + 2 ^ 32 - 1) % 2 ^ 32 = (rom.bytes - 1) % 2 ^ 32 := by omega
  have hread : (read s rom sed (0xa + p)).1 = rom.base (rom_index s rom (0xa + p)) := by
    unfold read
    rw [if_pos hport, if_pos ⟨hcmd, hun⟩]
    by_cases hinc : ((0xa + p) &&& 1) ≠ 0 ∧ sed = false
    · rw [if_pos hinc]
    · rw [if_neg hinc]
  have hidx : rom_index s rom (0xa + p)
      = (((2 * s.m_flash_addr) % 2 ^ 32 + p) % 2 ^ 32) &&& ((rom.bytes - 1) % 2 ^ 32) := by
    unfold rom_index
    simp only [hpar, hmask, Nat.shiftLeft_eq, Nat.pow_one, Nat.mul_comm]
  refine ⟨by rw [hread, hidx], ?_, ?_, ?_⟩
  · intro hle
    have hlt : (rom.bytes - 1) % 2 ^ 32 = rom.bytes - 1 := Nat.mod_eq_of_lt (by omega)
    rw [hread, hidx, hlt]
  · intro k hk hsize
    have h2 := rom_index_pow2 s rom p k hp hk hsize
    have hle : rom.bytes ≤ 2 ^ 32 := hsize ▸ Nat.pow_le_pow_right (by decide) hk
    have hlt : (rom.bytes - 1) % 2 ^ 32 = rom.bytes - 1 := Nat.mod_eq_of_lt (by omega)
    rw [hidx, hlt] at h2
    exact ⟨h2, by rw [hread, hidx, hlt, h2]⟩
  · intro k hk14 hk hsize haddr
    have h2 := rom_index_pow2 s rom p k hp hk hsize
    have hbig : (2 : Nat) ^ 14 ≤ 2 ^ k := Nat.pow_le_pow_right (by decide) hk14
    rw [hread, h2, haddr, hsize, Nat.mod_eq_of_lt (by omega)]

theorem read_array_returns_indexed_byte_witness :
    sample_read_array.m_flash_cmd = 0xf0 ∧ sample_read_array.m_flash_unlock = true
      ∧ 0 < sample_rom.bytes
      ∧ (read sample_read_array sample_rom false (0xa + 1)).1
          = sample_rom.base ((((2 * sample_read_array.m_flash_addr) % 2 ^ 32 + 1) % 2 ^ 32)
              &&& ((sample_rom.bytes - 1) % 2 ^ 32)) :=
  ⟨by decide, by decide, by decide,
    (read_array_returns_indexed_byte sample_read_array sample_rom false 1
      (by decide) (by decide) (by decide) (by decide)).1⟩

/-- C3, as the claim states it, fails: a device that has latched the command 0xF0, has
the chip enabled and holds 0x1000 in its latch (reached from a freshly constructed
device by port writes alone) keeps all three after `device_reset`; only the command
state, which was UNLOCK2, returns to IDLE. -/
theorem device_reset_keeps_latch_counterexample :
    (writes constructed sample_session).m_flash_state = 2
      ∧ (device_reset (writes constructed sample_session)).m_flash_state = 0
      ∧ (device_reset (writes constructed sample_session)).m_flash_addr = 0x1000
      ∧ (device_reset (writes constructed sample_session)).m_flash_cmd = 0xf0
      ∧ (device_reset (writes constructed sample_session)).m_flash_unlock = true
      ∧ ¬ ((device_reset (writes constructed sample_session)).m_flash_addr = 0
            ∧ (device_reset (writes constructed sample_session)).m_flash_state = 0
            ∧ (device_reset (writes constructed sample_session)).m_flash_cmd = 0
            ∧ (device_reset (writes constructed sample_session)).m_flash_unlock = false) := by
  decide

/-- C3, amended: `device_reset` returns the command state to IDLE and leaves the address
latch, the command byte and the unlock flag as they were; a freshly constructed device
holds zero in all four members, so resetting it leaves the latch 0, the state IDLE, the
command byte 0 and the unlock flag false. -/
theorem device_reset_clears_state_only (s : isa16_oksan_rom_disk) :
    (device_reset s).m_flash_state = 0
      ∧ (device_reset s).m_flash_addr = s.m_flash_addr
      ∧ (device_reset s).m_flash_cmd = s.m_flash_cmd
      ∧ (device_reset s).m_flash_unlock = s.m_flash_unlock
      ∧ (device_reset constructed).m_flash_addr = 0
      ∧ (device_reset constructed).m_flash_state = 0
      ∧ (device_reset constructed).m_flash_cmd = 0
      ∧ (device_reset constructed).m_flash_unlock = false :=
  ⟨rfl, rfl, rfl, rfl, rfl, rfl, rfl, rfl⟩

/-- C4: in read-array mode (`m_flash_cmd = 0xF0`, `m_flash_unlock` set) a read of the odd
data port (offset 0xB) with side effects enabled leaves the latch at `(A + 1) mod 2 ^ 32`
and the command state, command byte and unlock flag as they were, and a read of the even
data port (offset 0xA) leaves the whole device as it was; from `A = 0x1000` the odd read
leaves 0x1001 and from `A = 0xFFFFFFFF` it leaves 0. -/
theorem odd_read_advances_latch (s : isa16_oksan_rom_disk) (rom : memory_region)
    (hcmd : s.m_flash_cmd = 0xf0) (hun : s.m_flash_unlock = true) :
    (read s rom false 0xb).2.m_flash_addr = (s.m_flash_addr + 1) % 2 ^ 32
      ∧ (read s rom false 0xb).2.m_flash_state = s.m_flash_state
      ∧ (read s rom false 0xb).2.m_flash_cmd = s.m_flash_cmd
      ∧ (read s rom false 0xb).2.m_flash_unlock = s.m_flash_unlock
      ∧ (read s rom false 0xa).2 = s
      ∧ (s.m_flash_addr = 0x1000 → (read s rom false 0xb).2.m_flash_addr = 0x1001)
      ∧ (s.m_flash_addr = 0xffffffff → (read s rom false 0xb).2.m_flash_addr = 0) := by
  have hodd : (read s rom false 0xb).2
      = { s with m_flash_addr := (s.m_flash_addr + 1) % 2 ^ 32 } := by
    simp [read, hcmd, hun]
  have heven : (read s rom false 0xa).2 = s := by
    simp [read, hcmd, hun]
  refine ⟨by rw [hodd], by rw [hodd], by rw [hodd], by rw [hodd], heven, ?_, ?_⟩
  · intro h
    rw [hodd]
    show (s.m_flash_addr + 1) % 2 ^ 32 = 0x1001
    rw [h]
    decide
  · intro h
    rw [hodd]
    show (s.m_flash_addr + 1) % 2 ^ 32 = 0
    rw [h]
    decide

theorem odd_read_advances_latch_witness :
    sample_read_array.m_flash_cmd = 0xf0 ∧ sample_read_array.m_flash_unlock = true
      ∧ (read sample_read_array sample_rom false 0xb).2.m_flash_addr
          = (sample_read_array.m_flash_addr + 1) % 2 ^ 32 :=
  ⟨by decide, by decide,
    (odd_read_advances_latch sample_read_array sample_rom (by decide) (by decide)).1⟩

/-- C5: a read with side effects disabled, at any offset and in any state, leaves the
address latch, the command state, the command byte and the unlock flag as they were, and
returns the same byte as the read with side effects enabled at that offset in that
state. -/
theorem debug_read_changes_nothing (s : isa16_oksan_rom_disk) (rom : memory_region)
    (offset : Nat) :
    (read s rom true offset).2 = s
      ∧ (read s rom true offset).2.m_flash_addr = s.m_flash_addr
      ∧ (read s rom true offset).2.m_flash_state = s.m_flash_state
      ∧ (read s rom true offset).2.m_flash_cmd = s.m_flash_cmd
      ∧ (read s rom true offset).2.m_flash_unlock = s.m_flash_unlock
      ∧ (read s rom true offset).1 = (read s rom false offset).1 := by
  have hsame : (read s rom true offset).2 = s := by
    unfold read
    split_ifs <;> first | rfl | simp_all
  refine ⟨hsame, by rw [hsame], by rw [hsame], by rw [hsame], by rw [hsame], ?_⟩
  unfold read
  split_ifs <;> rfl

/-- C6: `read` returns 0 and leaves the device as it was whenever the read-array path is
not enabled: the unlock flag is clear (whatever the command byte), or the command byte is
not 0xF0, or the offset is neither data port (0xA, 0xB); this holds for every latch value,
every region and with side effects enabled or disabled. -/
theorem read_outside_array_mode_is_zero (s : isa16_oksan_rom_disk) (rom : memory_region)
    (sed : Bool) (offset : Nat)
    (hoff : s.m_flash_unlock = false ∨ s.m_flash_cmd ≠ 0xf0
      ∨ (offset ≠ 0xa ∧ offset ≠ 0xb)) :
    read s rom sed offset = (0, s) := by
  unfold read
  rcases hoff with h | h | ⟨h1, h2⟩
  · by_cases hport : offset = 0xa ∨ offset = 0xb
    · rw [if_pos hport, if_neg (by simp [h])]
    · rw [if_neg hport]
  · by_cases hport : offset = 0xa ∨ offset = 0xb
    · rw [if_pos hport, if_neg (fun hc => h hc.1)]
    · rw [if_neg hport]
  · rw [if_neg (by simp [h1, h2])]

theorem read_outside_array_mode_is_zero_witness :
    (constructed.m_flash_unlock = false ∨ constructed.m_flash_cmd ≠ 0xf0
        ∨ ((0xb : Nat) ≠ 0xa ∧ (0xb : Nat) ≠ 0xb))
      ∧ read constructed sample_rom false 0xb = (0, constructed) :=
  ⟨by decide, read_outside_array_mode_is_zero constructed sample_rom false 0xb (by decide)⟩

/-- C7: in the IDLE command state a write to the data port (offset 0xA) whose value is
not 0xAA, or that arrives while the low 16 bits of the latch are not 0x5555, leaves the
whole device as it was: the state stays IDLE and the command byte, the latch and the
unlock flag keep their values. -/
theorem idle_mismatch_is_ignored (s : isa16_oksan_rom_disk) (data : Nat)
    (hidle : s.m_flash_state = 0)
    (hmis : data ≠ 0xaa ∨ s.m_flash_addr % 65536 ≠ 0x5555) :
    write s 0xa data = s
      ∧ (write s 0xa data).m_flash_state = 0
      ∧ (write s 0xa data).m_flash_cmd = s.m_flash_cmd := by
  have hsame : write s 0xa data = s := by
    have hlow := low16 s.m_flash_addr
    unfold write
    simp only [hidle, hlow]
    rcases hmis with h | h
    · simp [h]
    · simp [h]
  exact ⟨hsame, by rw [hsame, hidle], by rw [hsame]⟩

theorem idle_mismatch_is_ignored_witness :
    constructed.m_flash_state = 0
      ∧ ((0xaa : Nat) ≠ 0xaa ∨ constructed.m_flash_addr % 65536 ≠ 0x5555)
      ∧ write constructed 0xa 0xaa = constructed :=
  ⟨by decide, by decide, (idle_mismatch_is_ignored constructed 0xaa (by decide) (by decide)).1⟩

/-- C8: in the UNLOCK1 command state (`m_flash_state = 1`, reached by a valid first byte)
a write to the data port whose value is not 0x55, or that arrives while the low 16 bits
of the latch are not 0x2AAA, leaves the state at UNLOCK1 and the command byte (and the
rest of the device) as it was; a second 0xAA written at 0x5555 right after the first is
such a write. -/
theorem unlock1_mismatch_stays (s : isa16_oksan_rom_disk) (data : Nat)
    (hst : s.m_flash_state = 1)
    (hmis : data ≠ 0x55 ∨ s.m_flash_addr % 65536 ≠ 0x2aaa) :
    (write s 0xa data).m_flash_state = 1
      ∧ (write s 0xa data).m_flash_cmd = s.m_flash_cmd
      ∧ write s 0xa data = s
      ∧ (∀ s0 : isa16_oksan_rom_disk, s0.m_flash_state = 0 →
          s0.m_flash_addr % 65536 = 0x5555 →
          (write s0 0xa 0xaa).m_flash_state = 1
            ∧ (write (write s0 0xa 0xaa) 0xa 0xaa).m_flash_state = 1
            ∧ (write (write s0 0xa 0xaa) 0xa 0xaa).m_flash_cmd = s0.m_flash_cmd) := by
  have hsame : write s 0xa data = s := by
    have hlow := low16 s.m_flash_addr
    unfold write
    simp only [hst, hlow]
    rcases hmis with h | h
    · simp [h]
    · simp [h]
  refine ⟨by rw [hsame, hst], by rw [hsame], hsame, ?_⟩
  intro s0 h0 hlow0
  have hl : s0.m_flash_addr &&& 0xffff = 0x5555 := by rw [low16]; exact hlow0
  have e1 := write_data_idle s0 h0 hl
  have e2 : write { s0 with m_flash_state := 1 } 0xa 0xaa = { s0 with m_flash_state := 1 } := by
    unfold write
    simp
  rw [e1, e2]
  exact ⟨rfl, rfl, rfl⟩

theorem unlock1_mismatch_stays_witness :
    sample_unlock1.m_flash_state = 1
      ∧ ((0xaa : Nat) ≠ 0x55 ∨ sample_unlock1.m_flash_addr % 65536 ≠ 0x2aaa)
      ∧ (write sample_unlock1 0xa 0xaa).m_flash_state = 1 :=
  ⟨by decide, by decide, (unlock1_mismatch_stays sample_unlock1 0xaa (by decide) (by decide)).1⟩

/-- C9: in the UNLOCK2 command state (`m_flash_state = 2`) with the low 16 bits of the
latch equal to 0x5555, a write of any byte `v` to the data port, 0xAA and 0x55 included,
stores `v` in the command byte and returns the state to IDLE; no value is rejected. -/
theorem unlock2_accepts_any_byte (s : isa16_oksan_rom_disk) (v : Nat)
    (hst : s.m_flash_state = 2) (hlow : s.m_flash_addr % 65536 = 0x5555) :
    (write s 0xa v).m_flash_cmd = v
      ∧ (write s 0xa v).m_flash_state = 0
      ∧ (write s 0xa 0xaa).m_flash_cmd = 0xaa ∧ (write s 0xa 0xaa).m_flash_state = 0
      ∧ (write s 0xa 0x55).m_flash_cmd = 0x55 ∧ (write s 0xa 0x55).m_flash_state = 0 := by
  have hl : s.m_flash_addr &&& 0xffff = 0x5555 := by rw [low16]; exact hlow
  rw [write_data_unlock2 s v hst hl, write_data_unlock2 s 0xaa hst hl,
    write_data_unlock2 s 0x55 hst hl]
  exact ⟨rfl, rfl, rfl, rfl, rfl, rfl⟩

theorem unlock2_accepts_any_byte_witness :
    sample_unlock2.m_flash_state = 2 ∧ sample_unlock2.m_flash_addr % 65536 = 0x5555
      ∧ (write sample_unlock2 0xa 0xaa).m_flash_cmd = 0xaa :=
  ⟨by decide, by decide, (unlock2_accepts_any_byte sample_unlock2 0xaa (by decide) (by decide)).1⟩

/-- C10: for each lane `i` of 0, 1, 2, 3 and every byte `v`, a write of `v` to offset
`2 * i` makes byte `i` (little-endian) of the address latch equal to `v`, leaves the other
three bytes of the 32-bit latch, the command state, the command byte and the unlock flag
as they were, and leaves a latch below `2 ^ 32`; so writing 0x34, 0x12, 0x00, 0x00 to
offsets 0, 2, 4, 6, in any order and from any state, leaves 0x00001234 in the latch. -/
theorem lane_write_replaces_one_byte (s : isa16_oksan_rom_disk) (i v : Nat)
    (hi : i < 4) (hv : v < 256) :
    byte_of (write s (2 * i) v).m_flash_addr i = v
      ∧ (∀ j, j < 4 → j ≠ i →
          byte_of (write s (2 * i) v).m_flash_addr j = byte_of s.m_flash_addr j)
      ∧ (write s (2 * i) v).m_flash_addr < 2 ^ 32
      ∧ (write s (2 * i) v).m_flash_state = s.m_flash_state
      ∧ (write s (2 * i) v).m_flash_cmd = s.m_flash_cmd
      ∧ (write s (2 * i) v).m_flash_unlock = s.m_flash_unlock
      ∧ (∀ l : List (Nat × Nat),
          l.Perm [(0x0, 0x34), (0x2, 0x12), (0x4, 0x00), (0x6, 0x00)] →
          (writes s l).m_flash_addr = 0x00001234) := by
  have hany := writes_four_lanes s
  interval_cases i
  · rw [show 2 * 0 = 0x0 from rfl, write_lane0]
    refine ⟨?_, ?_, ?_, rfl, rfl, rfl, hany⟩
    · simp only [byte_of]; omega
    · intro j hj hne
      interval_cases j <;> simp only [byte_of] <;> omega
    · simp only []; omega
  · rw [show 2 * 1 = 0x2 from rfl, write_lane1]
    refine ⟨?_, ?_, ?_, rfl, rfl, rfl, hany⟩
    · simp only [byte_of]; omega
    · intro j hj hne
      interval_cases j <;> simp only [byte_of] <;> omega
    · simp only []; omega
  · rw [show 2 * 2 = 0x4 from rfl, write_lane2]
    refine ⟨?_, ?_, ?_, rfl, rfl, rfl, hany⟩
    · simp only [byte_of]; omega
    · intro j hj hne
      interval_cases j <;> simp only [byte_of] <;> omega
    · simp only []; omega
  · rw [show 2 * 3 = 0x6 from rfl, write_lane3]
    refine ⟨?_, ?_, ?_, rfl, rfl, rfl, hany⟩
    · simp only [byte_of]; omega
    · intro j hj hne
      interval_cases j <;> simp only [byte_of] <;> omega
    · simp only []; omega

theorem lane_write_replaces_one_byte_witness :
    (1 : Nat) < 4 ∧ (0x12 : Nat) < 256
      ∧ byte_of (write sample_read_array (2 * 1) 0x12).m_flash_addr 1 = 0x12
      ∧ (writes sample_read_array [(0x6, 0x00), (0x2, 0x12), (0x4, 0x00), (0x0, 0x34)]).m_flash_addr
          = 0x00001234 :=
  ⟨by decide, by decide,
    (lane_write_replaces_one_byte sample_read_array 1 0x12 (by decide) (by decide)).1,
    (lane_write_replaces_one_byte sample_read_array 1 0x12 (by decide) (by decide)).2.2.2.2.2.2
      _ (by decide)⟩

/-- The `BIT` helper as arithmetic: bit `n` of `x` is `x / 2 ^ n % 2`. -/
theorem BIT_eq (x n : Nat) : BIT x n = x / 2 ^ n % 2 := by
  unfold BIT
  rw [Nat.and_one_is_mod, Nat.shiftRight_eq_div_pow]

/-- The mask 0x08 keeps bit 3 alone. -/
theorem and_eight (d : Nat) : d &&& 0x08 = 8 * (d / 8 % 2) := by
  have key : d &&& 2 ^ 3 = 2 ^ 3 * ((d >>> 3) % 2 ^ 1) := by
    apply Nat.eq_of_testBit_eq
    intro i
    rw [Nat.testBit_and, Nat.testBit_two_pow, Nat.testBit_mul_pow_two,
      Nat.testBit_mod_two_pow, Nat.testBit_shiftRight]
    by_cases hi : 3 = i
    · subst hi; simp
    · by_cases h3 : 3 ≤ i
      · have h1 : ¬ i - 3 < 1 := by omega
        simp [hi, h1]
      · simp [hi, h3]
  rw [Nat.shiftRight_eq_div_pow] at key
  exact key

/-- A read leaves the command state, the command byte and the unlock flag as they were,
at every offset and with side effects enabled or disabled. -/
theorem read_frame (s : isa16_oksan_rom_disk) (rom : memory_region) (sed : Bool)
    (offset : Nat) :
    (read s rom sed offset).2.m_flash_state = s.m_flash_state
      ∧ (read s rom sed offset).2.m_flash_cmd = s.m_flash_cmd
      ∧ (read s rom sed offset).2.m_flash_unlock = s.m_flash_unlock := by
  unfold read
  split_ifs <;> exact ⟨rfl, rfl, rfl⟩

/-- C11: the command state and the command byte change only on writes to the flash data
port (offset 0xA): every read, at any offset and with side effects enabled or disabled,
and every write of any data to an offset other than 0xA leave both as they were; and a
write to offset 0xA leaves the address latch and the unlock flag as they were. -/
theorem command_changes_only_on_data_port (s : isa16_oksan_rom_disk) (rom : memory_region)
    (sed : Bool) (roffset woffset data : Nat) (hother : woffset ≠ 0xa) :
    (read s rom sed roffset).2.m_flash_state = s.m_flash_state
      ∧ (read s rom sed roffset).2.m_flash_cmd = s.m_flash_cmd
      ∧ (write s woffset data).m_flash_state = s.m_flash_state
      ∧ (write s woffset data).m_flash_cmd = s.m_flash_cmd
      ∧ (write s 0xa data).m_flash_addr = s.m_flash_addr
      ∧ (write s 0xa data).m_flash_unlock = s.m_flash_unlock := by
  obtain ⟨hrs, hrc, -⟩ := read_frame s rom sed roffset
  refine ⟨hrs, hrc, ?_, ?_, ?_, ?_⟩
  · unfold write
    rw [if_neg hother]
    split_ifs <;> rfl
  · unfold write
    rw [if_neg hother]
    split_ifs <;> rfl
  · unfold write
    simp only [show ¬ ((0xa : Nat) = 0x0) by decide, show ¬ ((0xa : Nat) = 0x2) by decide,
      show ¬ ((0xa : Nat) = 0x4) by decide, show ¬ ((0xa : Nat) = 0x6) by decide, if_false,
      if_true]
    split_ifs <;> rfl
  · unfold write
    simp only [show ¬ ((0xa : Nat) = 0x0) by decide, show ¬ ((0xa : Nat) = 0x2) by decide,
      show ¬ ((0xa : Nat) = 0x4) by decide, show ¬ ((0xa : Nat) = 0x6) by decide, if_false,
      if_true]
    split_ifs <;> rfl

theorem command_changes_only_on_data_port_witness :
    (0xc : Nat) ≠ 0xa
      ∧ (read sample_unlock2 sample_rom false 0xb).2.m_flash_state = sample_unlock2.m_flash_state
      ∧ (write sample_unlock2 0xc 0x08).m_flash_state = sample_unlock2.m_flash_state
      ∧ (write sample_unlock2 0xc 0x08).m_flash_cmd = sample_unlock2.m_flash_cmd
      ∧ (write sample_unlock2 0xa 0xf0).m_flash_addr = sample_unlock2.m_flash_addr :=
  ⟨by decide,
    (command_changes_only_on_data_port sample_unlock2 sample_rom false 0xb 0xc 0x08
      (by decide)).1,
    (command_changes_only_on_data_port sample_unlock2 sample_rom false 0xb 0xc 0x08
      (by decide)).2.2.1,
    (command_changes_only_on_data_port sample_unlock2 sample_rom false 0xb 0xc 0x08
      (by decide)).2.2.2.1,
    (command_changes_only_on_data_port sample_unlock2 sample_rom false 0xb 0xc 0xf0
      (by decide)).2.2.2.2.1⟩

/-- C12: a write of the byte `d` to the control port (offset 0xC) sets the unlock flag to
bit 3 of `d` (set exactly when `d AND 0x08` is not zero, that is when `d / 8` is odd),
whatever the command state, and leaves the address latch, the command state and the
command byte as they were; a write to any other offset, a read at any offset and
`device_reset` leave the unlock flag as it was. -/
theorem control_port_sets_unlock (s : isa16_oksan_rom_disk) (rom : memory_region)
    (sed : Bool) (roffset woffset d e : Nat) (hother : woffset ≠ 0xc) :
    (write s 0xc d).m_flash_unlock = decide (d &&& 0x08 ≠ 0)
      ∧ ((write s 0xc d).m_flash_unlock = true ↔ d / 8 % 2 = 1)
      ∧ (write s 0xc d).m_flash_addr = s.m_flash_addr
      ∧ (write s 0xc d).m_flash_state = s.m_flash_state
      ∧ (write s 0xc d).m_flash_cmd = s.m_flash_cmd
      ∧ (write s woffset e).m_flash_unlock = s.m_flash_unlock
      ∧ (read s rom sed roffset).2.m_flash_unlock = s.m_flash_unlock
      ∧ (device_reset s).m_flash_unlock = s.m_flash_unlock := by
  have hw : write s 0xc d = { s with m_flash_unlock := decide (BIT d 3 ≠ 0) } := by
    simp [write]
  have hbit : BIT d 3 = d / 8 % 2 := by rw [BIT_eq]; norm_num
  have hand : d &&& 0x08 = 8 * (d / 8 % 2) := and_eight d
  refine ⟨?_, ?_, by rw [hw], by rw [hw], by rw [hw], ?_, (read_frame s rom sed roffset).2.2,
    rfl⟩
  · rw [hw]
    show decide (BIT d 3 ≠ 0) = decide (d &&& 0x08 ≠ 0)
    rw [hbit, hand]
    congr 1
    apply propext
    constructor <;> intro h <;> omega
  · rw [hw]
    show decide (BIT d 3 ≠ 0) = true ↔ d / 8 % 2 = 1
    rw [hbit, decide_eq_true_iff]
    omega
  · unfold write
    rw [if_neg hother]
    dsimp only
    split_ifs <;> rfl

theorem control_port_sets_unlock_witness :
    (0xa : Nat) ≠ 0xc
      ∧ (write sample_unlock2 0xc 0x08).m_flash_unlock = decide ((0x08 : Nat) &&& 0x08 ≠ 0)
      ∧ (write sample_unlock2 0xa 0xf0).m_flash_unlock = sample_unlock2.m_flash_unlock :=
  ⟨by decide,
    (control_port_sets_unlock sample_unlock2 sample_rom false 0xb 0xa 0x08 0xf0
      (by decide)).1,
    (control_port_sets_unlock sample_unlock2 sample_rom false 0xb 0xa 0x08 0xf0
      (by decide)).2.2.2.2.2.1⟩

/-- C13: a read of the I/O board at window offset 8 returns the IN0 value, at offset 9 the
System value, at offset 0xA the IN1 value and at offset 0xB the IN2 value, whatever the
four values are; each result stays the same when the other three inputs (and the EEPROM
line) are replaced by any other values. -/
theorem input_reads_return_snapshots (d : isa16_xtom3d_io_sound)
    (system in0 in1 in2 eeprom_do : Nat) :
    io_map_read d 0x08 = io_read_result.value d.m_in0
      ∧ io_map_read d 0x09 = io_read_result.value d.m_system
      ∧ io_map_read d 0x0a = io_read_result.value d.m_in1
      ∧ io_map_read d 0x0b = io_read_result.value d.m_in2
      ∧ io_map_read
          { d with m_system := system, m_in1 := in1, m_in2 := in2, m_eeprom_do_read := eeprom_do }
          0x08 = io_map_read d 0x08
      ∧ io_map_read
          { d with m_in0 := in0, m_in1 := in1, m_in2 := in2, m_eeprom_do_read := eeprom_do }
          0x09 = io_map_read d 0x09
      ∧ io_map_read
          { d with m_system := system, m_in0 := in0, m_in2 := in2, m_eeprom_do_read := eeprom_do }
          0x0a = io_map_read d 0x0a
      ∧ io_map_read
          { d with m_system := system, m_in0 := in0, m_in1 := in1, m_eeprom_do_read := eeprom_do }
          0x0b = io_map_read d 0x0b := by
  have h8 : ∀ x : isa16_xtom3d_io_sound, io_map_read x 0x08 = io_read_result.value x.m_in0 := by
    intro x
    simp [io_map_read, io_map_r_08_09]
  have h9 : ∀ x : isa16_xtom3d_io_sound, io_map_read x 0x09 = io_read_result.value x.m_system := by
    intro x
    simp [io_map_read, io_map_r_08_09]
  have ha : ∀ x : isa16_xtom3d_io_sound, io_map_read x 0x0a = io_read_result.value x.m_in1 := by
    intro x
    simp [io_map_read, io_map_r_0a_0b]
  have hb : ∀ x : isa16_xtom3d_io_sound, io_map_read x 0x0b = io_read_result.value x.m_in2 := by
    intro x
    simp [io_map_read, io_map_r_0a_0b]
  refine ⟨h8 d, h9 d, ha d, hb d, ?_, ?_, ?_, ?_⟩
  · rw [h8, h8]
  · rw [h9, h9]
  · rw [ha, ha]
  · rw [hb, hb]

/-- C14: for every byte `d` written to window offset 0xC the handler calls `clk_write`,
`cs_write` and `di_write` once each, so that the chip-select line is driven to bit 0 of
`d`, the clock line to bit 1 and the data-in line to bit 2; a byte `e` that agrees with
`d` on bits 0 to 2 produces the same calls and the same line levels, so bits 3 to 7 have
no influence; writing 0b0111 drives all three lines to 1. -/
theorem eeprom_write_drives_three_lines (l : eeprom_lines) (d e : Nat)
    (hagree : d % 8 = e % 8) :
    io_map_write 0x0c d
        = io_write_result.eeprom
            [eeprom_call.clk_write (d / 2 % 2), eeprom_call.cs_write (d % 2),
              eeprom_call.di_write (d / 4 % 2)]
      ∧ (l.drive_all (io_map_w_0c d)).cs = d % 2
      ∧ (l.drive_all (io_map_w_0c d)).clk = d / 2 % 2
      ∧ (l.drive_all (io_map_w_0c d)).di = d / 4 % 2
      ∧ io_map_write 0x0c e = io_map_write 0x0c d
      ∧ l.drive_all (io_map_w_0c e) = l.drive_all (io_map_w_0c d)
      ∧ l.drive_all (io_map_w_0c 0b0111) = { cs := 1, clk := 1, di := 1 } := by
  have hcalls : ∀ x : Nat, io_map_w_0c x
      = [eeprom_call.clk_write (x / 2 % 2), eeprom_call.cs_write (x % 2),
          eeprom_call.di_write (x / 4 % 2)] := by
    intro x
    have h0 : (if BIT x 0 ≠ 0 then ASSERT_LINE else CLEAR_LINE) = x % 2 := by
      rw [BIT_eq]
      simp only [ASSERT_LINE, CLEAR_LINE, Nat.pow_zero, Nat.div_one]
      split_ifs <;> omega
    have h1 : (if BIT x 1 ≠ 0 then ASSERT_LINE else CLEAR_LINE) = x / 2 % 2 := by
      rw [BIT_eq]
      simp only [ASSERT_LINE, CLEAR_LINE, Nat.pow_one]
      split_ifs <;> omega
    have h2 : (if BIT x 2 ≠ 0 then ASSERT_LINE else CLEAR_LINE) = x / 4 % 2 := by
      rw [BIT_eq]
      simp only [ASSERT_LINE, CLEAR_LINE, show (2 : Nat) ^ 2 = 4 by decide]
      split_ifs <;> omega
    unfold io_map_w_0c
    rw [h0, h1, h2]
  have hroute : ∀ x : Nat, io_map_write 0x0c x = io_write_result.eeprom (io_map_w_0c x) := by
    intro x
    simp [io_map_write]
  have hsame : io_map_w_0c e = io_map_w_0c d := by
    rw [hcalls, hcalls]
    have a0 : e % 2 = d % 2 := by omega
    have a1 : e / 2 % 2 = d / 2 % 2 := by omega
    have a2 : e / 4 % 2 = d / 4 % 2 := by omega
    rw [a0, a1, a2]
  refine ⟨by rw [hroute, hcalls], ?_, ?_, ?_, by rw [hroute, hroute, hsame], by rw [hsame],
    ?_⟩
  · rw [hcalls]; rfl
  · rw [hcalls]; rfl
  · rw [hcalls]; rfl
  · rw [hcalls]; rfl

theorem eeprom_write_drives_three_lines_witness :
    (0b0111 : Nat) % 8 = 0xf7 % 8
      ∧ io_map_write 0x0c 0b0111
          = io_write_result.eeprom
              [eeprom_call.clk_write (0b0111 / 2 % 2), eeprom_call.cs_write (0b0111 % 2),
                eeprom_call.di_write (0b0111 / 4 % 2)]
      ∧ io_map_write 0x0c 0xf7 = io_map_write 0x0c 0b0111 :=
  ⟨by decide,
    (eeprom_write_drives_three_lines { cs := 0, clk := 0, di := 0 } 0b0111 0xf7
      (by decide)).1,
    (eeprom_write_drives_three_lines { cs := 0, clk := 0, di := 0 } 0b0111 0xf7
      (by decide)).2.2.2.2.1⟩

/-- C15: a read of the I/O board at window offset 0xE returns the EEPROM data-out value
OR'd with 0xFE: 0xFF when data-out is 1 and 0xFE when it is 0; whatever data-out is,
bits 1 to 7 of the result are set, also after the result is cut to a byte. -/
theorem eeprom_read_sets_high_bits (d : isa16_xtom3d_io_sound) (i : Nat)
    (hlo : 1 ≤ i) (hhi : i ≤ 7) :
    io_map_read d 0x0e = io_read_result.value (d.m_eeprom_do_read ||| 0xfe)
      ∧ (d.m_eeprom_do_read = 1 → io_map_read d 0x0e = io_read_result.value 0xff)
      ∧ (d.m_eeprom_do_read = 0 → io_map_read d 0x0e = io_read_result.value 0xfe)
      ∧ Nat.testBit (io_map_r_0e d) i = true
      ∧ Nat.testBit (io_map_r_0e d % 256) i = true := by
  have hroute : io_map_read d 0x0e = io_read_result.value (d.m_eeprom_do_read ||| 0xfe) := by
    simp [io_map_read, io_map_r_0e]
  have hmask : Nat.testBit 0xfe i = true := by
    have hfe : (0xfe : Nat) = (2 ^ 7 - 1) <<< 1 := by decide
    rw [hfe, testBit_mask]
    simp only [decide_eq_true_eq]
    omega
  have hbit : Nat.testBit (io_map_r_0e d) i = true := by
    unfold io_map_r_0e
    rw [Nat.testBit_or, hmask, Bool.or_true]
  refine ⟨hroute, ?_, ?_, hbit, ?_⟩
  · intro h1
    rw [hroute, h1]
    rfl
  · intro h0
    rw [hroute, h0]
    rfl
  · have h256 : (256 : Nat) = 2 ^ 8 := by decide
    rw [h256, Nat.testBit_mod_two_pow, hbit, Bool.and_true]
    simp only [decide_eq_true_eq]
    omega

theorem eeprom_read_sets_high_bits_witness :
    (1 : Nat) ≤ 7 ∧ (7 : Nat) ≤ 7
      ∧ io_map_read sample_board 0x0e
          = io_read_result.value (sample_board.m_eeprom_do_read ||| 0xfe)
      ∧ Nat.testBit (io_map_r_0e sample_board) 7 = true :=
  ⟨by decide, by decide,
    (eeprom_read_sets_high_bits sample_board 7 (by decide) (by decide)).1,
    (eeprom_read_sets_high_bits sample_board 7 (by decide) (by decide)).2.2.2.1⟩

/-- In read-array mode with a region of `2 ^ k` bytes, `k ≤ 32`, the even data port gives
the byte at `2 * A mod size` and leaves the device as it was. -/
theorem read_array_even (s : isa16_oksan_rom_disk) (rom : memory_region) (k : Nat)
    (hcmd : s.m_flash_cmd = 0xf0) (hun : s.m_flash_unlock = true)
    (hk : k ≤ 32) (hsize : rom.bytes = 2 ^ k) :
    read s rom false 0xa = (rom.base ((2 * s.m_flash_addr + 0) % rom.bytes), s) := by
  have hidx := rom_index_pow2 s rom 0 k (by decide) hk hsize
  unfold read
  rw [if_pos (Or.inl rfl), if_pos ⟨hcmd, hun⟩]
  have hpar : ¬ (((0xa : Nat) &&& 1) ≠ 0 ∧ false = false) := by decide
  rw [if_neg hpar]
  exact congrArg (fun j => (rom.base j, s)) hidx

/-- In read-array mode with a region of `2 ^ k` bytes, `k ≤ 32`, the odd data port with
side effects enabled gives the byte at `(2 * A + 1) mod size` and advances the latch. -/
theorem read_array_odd (s : isa16_oksan_rom_disk) (rom : memory_region) (k : Nat)
    (hcmd : s.m_flash_cmd = 0xf0) (hun : s.m_flash_unlock = true)
    (hk : k ≤ 32) (hsize : rom.bytes = 2 ^ k) :
    read s rom false 0xb
      = (rom.base ((2 * s.m_flash_addr + 1) % rom.bytes),
          { s with m_flash_addr := (s.m_flash_addr + 1) % 2 ^ 32 }) := by
  have hidx := rom_index_pow2 s rom 1 k (by decide) hk hsize
  unfold read
  rw [if_pos (Or.inr rfl), if_pos ⟨hcmd, hun⟩]
  have hpar : ((0xb : Nat) &&& 1) ≠ 0 ∧ false = false := by decide
  rw [if_pos hpar]
  exact congrArg
    (fun j => (rom.base j, { s with m_flash_addr := (s.m_flash_addr + 1) % 2 ^ 32 })) hidx

/-- Advancing a 32-bit latch by one word moves the byte index by two, modulo a size that
divides `2 ^ 32`, also when the latch wraps. -/
theorem index_after_increment (a i k : Nat) (hk : k ≤ 32) (ha : a < 2 ^ 32) :
    (2 * ((a + 1) % 2 ^ 32) + i) % 2 ^ k = (2 * a + (i + 2)) % 2 ^ k := by
  by_cases hwrap : a + 1 < 2 ^ 32
  · rw [Nat.mod_eq_of_lt hwrap]
    congr 1
    omega
  · have hmax : a + 1 = 2 ^ 32 := by omega
    obtain ⟨c, hc⟩ : (2 : Nat) ^ k ∣ 2 ^ 33 := Nat.pow_dvd_pow 2 (by omega)
    have hl : 2 * ((a + 1) % 2 ^ 32) + i = i := by
      rw [hmax, Nat.mod_self]
      omega
    have hr : 2 * a + (i + 2) = i + 2 ^ k * c := by
      rw [← hc]
      omega
    rw [hl, hr, Nat.add_mul_mod_self_left]

/-- C16: in read-array mode (`m_flash_cmd = 0xF0`, `m_flash_unlock` set) with a region
whose size is a power of two up to `2 ^ 32`, starting from a 32-bit latch value `A`, `n`
successive word fetches with side effects enabled (a read of offset 0xA, then a read of
offset 0xB) return the `2 * n` bytes at the indices `(2 * A + i) mod size` for
`i = 0 .. 2 * n - 1`, in that order, and leave the latch at `(A + n) mod 2 ^ 32` with the
rest of the device as it was; this holds for every `n`. -/
theorem streaming_read_walks_the_image (rom : memory_region) (k n : Nat)
    (s : isa16_oksan_rom_disk)
    (hcmd : s.m_flash_cmd = 0xf0) (hun : s.m_flash_unlock = true)
    (hk : k ≤ 32) (hsize : rom.bytes = 2 ^ k) (haddr : s.m_flash_addr < 2 ^ 32) :
    (fetch_words s rom n).1
        = (List.range (2 * n)).map (fun i => rom.base ((2 * s.m_flash_addr + i) % rom.bytes))
      ∧ (fetch_words s rom n).2.m_flash_addr = (s.m_flash_addr + n) % 2 ^ 32
      ∧ (fetch_words s rom n).2
          = { s with m_flash_addr := (s.m_flash_addr + n) % 2 ^ 32 } := by
  suffices hmain : (fetch_words s rom n).1
        = (List.range (2 * n)).map (fun i => rom.base ((2 * s.m_flash_addr + i) % rom.bytes))
      ∧ (fetch_words s rom n).2
          = { s with m_flash_addr := (s.m_flash_addr + n) % 2 ^ 32 } from
    ⟨hmain.1, by rw [hmain.2], hmain.2⟩
  induction n generalizing s with
  | zero =>
    refine ⟨rfl, ?_⟩
    show s = { s with m_flash_addr := (s.m_flash_addr + 0) % 2 ^ 32 }
    rw [Nat.add_zero, Nat.mod_eq_of_lt haddr]
  | succ m ih =>
    have hnext : (s.m_flash_addr + 1) % 2 ^ 32 < 2 ^ 32 := Nat.mod_lt _ (by decide)
    obtain ⟨hbytes, hlast⟩ :=
      ih { s with m_flash_addr := (s.m_flash_addr + 1) % 2 ^ 32 } hcmd hun hnext
    have hstep : fetch_words s rom (m + 1)
        = (rom.base ((2 * s.m_flash_addr + 0) % rom.bytes)
            :: rom.base ((2 * s.m_flash_addr + 1) % rom.bytes)
            :: (fetch_words { s with m_flash_addr := (s.m_flash_addr + 1) % 2 ^ 32 } rom m).1,
           (fetch_words { s with m_flash_addr := (s.m_flash_addr + 1) % 2 ^ 32 } rom m).2) := by
      rw [fetch_words]
      simp only [read_array_even s rom k hcmd hun hk hsize,
        read_array_odd s rom k hcmd hun hk hsize]
    rw [hstep]
    constructor
    · show _ :: _ :: (fetch_words _ rom m).1 = _
      rw [hbytes, show 2 * (m + 1) = 2 * m + 1 + 1 by omega, List.range_succ_eq_map,
        List.range_succ_eq_map]
      simp only [List.map_cons, List.map_map]
      refine congrArg₂ _ rfl (congrArg₂ _ rfl ?_)
      apply List.map_congr_left
      intro i _
      show rom.base ((2 * ((s.m_flash_addr + 1) % 2 ^ 32) + i) % rom.bytes)
        = rom.base ((2 * s.m_flash_addr + (i + 1 + 1)) % rom.bytes)
      rw [hsize, index_after_increment s.m_flash_addr i k hk haddr]
    · show (fetch_words _ rom m).2 = _
      rw [hlast]
      show ({ s with m_flash_addr := ((s.m_flash_addr + 1) % 2 ^ 32 + m) % 2 ^ 32 }
          : isa16_oksan_rom_disk)
        = { s with m_flash_addr := (s.m_flash_addr + (m + 1)) % 2 ^ 32 }
      have e : ((s.m_flash_addr + 1) % 2 ^ 32 + m) % 2 ^ 32
          = (s.m_flash_addr + (m + 1)) % 2 ^ 32 := by omega
      rw [e]

theorem streaming_read_walks_the_image_witness :
    sample_read_array.m_flash_cmd = 0xf0 ∧ sample_read_array.m_flash_unlock = true
      ∧ (14 : Nat) ≤ 32 ∧ sample_rom.bytes = 2 ^ 14 ∧ sample_read_array.m_flash_addr < 2 ^ 32
      ∧ (fetch_words sample_read_array sample_rom 3).1
          = (List.range (2 * 3)).map
              (fun i => sample_rom.base ((2 * sample_read_array.m_flash_addr + i) % sample_rom.bytes))
      ∧ (fetch_words sample_read_array sample_rom 3).2.m_flash_addr
          = (sample_read_array.m_flash_addr + 3) % 2 ^ 32 :=
  ⟨by decide, by decide, by decide, by decide, by decide,
    (streaming_read_walks_the_image sample_rom 14 3 sample_read_array
      (by decide) (by decide) (by decide) (by decide) (by decide)).1,
    (streaming_read_walks_the_image sample_rom 14 3 sample_read_array
      (by decide) (by decide) (by decide) (by decide) (by decide)).2.1⟩

/-- C17: the index that `read` computes is always inside the image: for every region
that is not empty, every latch value and both parities, the index
`((A << 1) + p) AND (size - 1)`, which for a size below `2 ^ 32` is the `u32` expression
of the source, is strictly less than the size, and it is the index at which `read`
fetches its byte in read-array mode. -/
theorem rom_index_in_bounds (s : isa16_oksan_rom_disk) (rom : memory_region) (sed : Bool)
    (p : Nat) (hp : p < 2) (hne : 0 < rom.bytes) :
    rom_index s rom (0xa + p) < rom.bytes
      ∧ (rom.bytes < 2 ^ 32 →
          rom_index s rom (0xa + p)
              = (((2 * s.m_flash_addr) % 2 ^ 32 + p) % 2 ^ 32) &&& (rom.bytes - 1)
            ∧ ((((2 * s.m_flash_addr) % 2 ^ 32 + p) % 2 ^ 32) &&& (rom.bytes - 1)) < rom.bytes)
      ∧ (s.m_flash_cmd = 0xf0 → s.m_flash_unlock = true →
          (read s rom sed (0xa + p)).1 = rom.base (rom_index s rom (0xa + p)))
      ∧ (∀ offset : Nat, rom_index s rom offset < rom.bytes) := by
  have hmask : (rom.bytes + 2 ^ 32 - 1) % 2 ^ 32 < rom.bytes := by omega
  have hall : ∀ offset : Nat, rom_index s rom offset < rom.bytes := by
    intro offset
    unfold rom_index
    exact Nat.lt_of_le_of_lt Nat.and_le_right hmask
  have hpar : (0xa + p) &&& 1 = p := by
    rw [Nat.and_one_is_mod]; omega
  refine ⟨hall _, ?_, ?_, hall⟩
  · intro hlt
    have hidx : rom_index s rom (0xa + p)
        = (((2 * s.m_flash_addr) % 2 ^ 32 + p) % 2 ^ 32) &&& (rom.bytes - 1) := by
      unfold rom_index
      simp only [hpar, flash_size_eq _ hne (Nat.le_of_lt hlt), Nat.shiftLeft_eq, Nat.pow_one,
        Nat.mul_comm]
    exact ⟨hidx, hidx ▸ hall _⟩
  · intro hcmd hun
    have hport : 0xa + p = 0xa ∨ 0xa + p = 0xb := by omega
    unfold read
    rw [if_pos hport, if_pos ⟨hcmd, hun⟩]
    by_cases hinc : ((0xa + p) &&& 1) ≠ 0 ∧ sed = false
    · rw [if_pos hinc]
    · rw [if_neg hinc]

theorem rom_index_in_bounds_witness :
    (1 : Nat) < 2 ∧ 0 < sample_rom.bytes
      ∧ rom_index sample_read_array sample_rom (0xa + 1) < sample_rom.bytes :=
  ⟨by decide, by decide,
    (rom_index_in_bounds sample_read_array sample_rom false 1 (by decide) (by decide)).1⟩

end Xtom3d
